import Mathlib

/-!
Verification of the turn-based control protocol of mcphost-example-cockpit.

The repository has two sides:
* `src/main.go` — the agent-side process: a newline-delimited JSON protocol
  over stdin/stdout (`Message`, `recvMessage`, `sendMessage`), a session loop
  (`chatLoop`) and a prompt-turn controller with a synchronous tool-approval
  gate (`handlePrompt` with its three engine callbacks).
* `src/src/app.tsx` — the cockpit client: a carry-over-buffer stream codec
  (the `proc.stream` handler) that splits the byte stream on newlines and
  JSON-parses each complete line, dropping malformed ones.

This file shallowly embeds both sides.  I/O is made explicit: the inbound
stream of the Go process is a `List RecvItem` (lines, a persistent scanner
error, end-of-input), outbound writes are recorded as `Action.emit` entries
of a trace, and write errors are injected through a `Nat → Bool` oracle
(index = how many writes happened before).  The external agent engine is
represented by the sequence of callback invocations it performs
(`List EngineEvent`) plus whether its invocation returns an error, exactly
the surface `host.PromptWithCallbacks` exposes to this program.

The JSON layer is external library code (`encoding/json`, `JSON.parse`);
it is modelled concretely for the wire schema both peers actually produce:
a two-member object `\x7b"msg_type": <string>, "content": <string>\x7d`
written without spaces, member order as in the Go struct / tsx literal,
with the string-escape rules of Go's encoder (including its HTML escaping)
and an unescaping parser accepting the standard JSON escapes.
-/

namespace McpCockpit

/-- Message mirrors `type Message struct` of src/main.go: a wire kind tag
(`msg_type` on the wire) plus a free-text payload. -/
structure Message where
  MsgType : String
  Content : String
deriving DecidableEq, Repr, Inhabited

/-- Kind constant `msgTypeReady` of src/main.go. -/
def msgTypeReady : String := "ready"

/-- Kind constant `msgTypePrompt` of src/main.go. -/
def msgTypePrompt : String := "prompt"

/-- Kind constant `msgTypeQuit` of src/main.go. -/
def msgTypeQuit : String := "quit"

/-- Kind constant `msgTypeChunk` of src/main.go. -/
def msgTypeChunk : String := "chunk"

/-- Kind constant `msgTypeConfirm` of src/main.go. -/
def msgTypeConfirm : String := "confirm-tool-run"

/-- Kind constant `msgTypeAllow` of src/main.go. -/
def msgTypeAllow : String := "allow-tool-run"

/-- Kind constant `msgTypeDeny` of src/main.go. -/
def msgTypeDeny : String := "deny-tool-run"

/-- Kind constant `msgTypeResultOK` of src/main.go. -/
def msgTypeResultOK : String := "tool-result-ok"

/-- Kind constant `msgTypeResultFailed` of src/main.go. -/
def msgTypeResultFailed : String := "tool-result-failed"

/-- Kind constant `msgTypeResultCanceled` of src/main.go. -/
def msgTypeResultCanceled : String := "tool-result-canceled"

/-- The ten enumerated wire kinds of the protocol (spec section 3). -/
def enumeratedKinds : List String :=
  [msgTypeReady, msgTypePrompt, msgTypeQuit, msgTypeChunk, msgTypeConfirm,
   msgTypeAllow, msgTypeDeny, msgTypeResultOK, msgTypeResultFailed,
   msgTypeResultCanceled]

/-! ### JSON string escaping (Go `encoding/json` encoder, HTML escaping on) -/

/-- Lower-case hexadecimal digit, as Go's encoder emits in `\u00xx` escapes. -/
def hexDigitChar (n : Nat) : Char :=
  if n < 10 then Char.ofNat (48 + n) else Char.ofNat (87 + n)

/-- Escape one character the way Go's `encoding/json` encoder (with its
default HTML escaping) renders it inside a JSON string: the two-character
escapes for quote, backslash, newline, carriage return and tab; `\u00xx`
for the remaining control characters and for `<`, `>`, `&`; the `u2028`/`u2029` escapes for the two Unicode line separators; every other character verbatim. -/
def escapeChar (c : Char) : List Char :=
  if c = '"' then ['\\', '"']
  else if c = '\\' then ['\\', '\\']
  else if c = '\n' then ['\\', 'n']
  else if c = '\r' then ['\\', 'r']
  else if c = '\t' then ['\\', 't']
  else if c.toNat < 32 || c = '<' || c = '>' || c = '&' then
    ['\\', 'u', '0', '0', hexDigitChar (c.toNat / 16), hexDigitChar (c.toNat % 16)]
  else if c.toNat = 8232 || c.toNat = 8233 then
    ['\\', 'u', '2', '0', '2', hexDigitChar (c.toNat % 16)]
  else [c]

/-- Escape a whole character sequence. -/
def escapeList : List Char → List Char
  | [] => []
  | c :: cs => escapeChar c ++ escapeList cs

/-- A JSON string literal: quote, escaped body, quote. -/
def jsonQuote (s : String) : List Char :=
  '"' :: (escapeList s.toList ++ ['"'])

/-- The characters opening the wire object up to the first value:
`\x7b"msg_type":`. -/
def keyHead : List Char := '\x7b' :: "\"msg_type\":".toList

/-- The characters between the two values: `,"content":`. -/
def keyMid : List Char := ",\"content\":".toList

/-- Encoding of one Message as both peers put it on the wire (Go struct
field order, no spaces): `\x7b"msg_type":"…","content":"…"\x7d`. -/
def encodeMessage (m : Message) : List Char :=
  keyHead ++ jsonQuote m.MsgType ++ keyMid ++ jsonQuote m.Content ++ ['\x7d']

/-- sendMessage of src/main.go as a pure byte production:
`json.NewEncoder(w).Encode(msg)` writes the object and appends exactly one
newline. -/
def sendMessageChars (m : Message) : List Char := encodeMessage m ++ ['\n']

/-! ### JSON parsing for the wire schema -/

/-- Value of a hexadecimal digit character, if it is one. -/
def hexVal (c : Char) : Option Nat :=
  if 48 ≤ c.toNat && c.toNat ≤ 57 then some (c.toNat - 48)
  else if 97 ≤ c.toNat && c.toNat ≤ 102 then some (c.toNat - 87)
  else if 65 ≤ c.toNat && c.toNat ≤ 70 then some (c.toNat - 55)
  else none

/-- The single-character JSON escapes. -/
def simpleUnescape (e : Char) : Option Char :=
  if e = '"' then some '"'
  else if e = '\\' then some '\\'
  else if e = '/' then some '/'
  else if e = 'n' then some '\n'
  else if e = 'r' then some '\r'
  else if e = 't' then some '\t'
  else if e = 'b' then some (Char.ofNat 8)
  else if e = 'f' then some (Char.ofNat 12)
  else none

/-- Parse the body of a JSON string after its opening quote, returning the
decoded characters and the input after the closing quote.  Rejects a raw
control character, a bad escape, or a missing closing quote, as
`JSON.parse` does. -/
def parseStringBody : List Char → Option (List Char × List Char)
  | [] => none
  | c :: rest =>
    if c = '"' then some ([], rest)
    else if c = '\\' then
      match rest with
      | [] => none
      | e :: rest2 =>
        if e = 'u' then
          match rest2 with
          | h1 :: h2 :: h3 :: h4 :: rest3 =>
            match hexVal h1, hexVal h2, hexVal h3, hexVal h4 with
            | some v1, some v2, some v3, some v4 =>
              match parseStringBody rest3 with
              | some (cs, r) =>
                some (Char.ofNat (((v1 * 16 + v2) * 16 + v3) * 16 + v4) :: cs, r)
              | none => none
            | _, _, _, _ => none
          | _ => none
        else
          match simpleUnescape e with
          | some uc =>
            match parseStringBody rest2 with
            | some (cs, r) => some (uc :: cs, r)
            | none => none
          | none => none
    else if c.toNat < 32 then none
    else
      match parseStringBody rest with
      | some (cs, r) => some (c :: cs, r)
      | none => none

/-- Strip an expected literal character sequence from the front of the
input, or fail. -/
def stripLit : List Char → List Char → Option (List Char)
  | [], s => some s
  | _ :: _, [] => none
  | p :: ps, c :: cs => if c = p then stripLit ps cs else none

/-- Decode one complete line into a Message.  This models the JSON decoding
step both sides apply to a framed line (`JSON.parse` in src/src/app.tsx and
`json.Unmarshal` in src/main.go), restricted to the only object shape either
peer ever writes: the two members in Go-struct order with no extra
whitespace.  Any other line is a decode failure. -/
def parseMessageLine (l : List Char) : Option Message :=
  match stripLit keyHead l with
  | none => none
  | some l1 =>
    match l1 with
    | '"' :: l2 =>
      match parseStringBody l2 with
      | none => none
      | some (t, l3) =>
        match stripLit keyMid l3 with
        | none => none
        | some l4 =>
          match l4 with
          | '"' :: l5 =>
            match parseStringBody l5 with
            | none => none
            | some (cnt, l6) =>
              if l6 = ['\x7d'] then some ⟨String.mk t, String.mk cnt⟩ else none
          | _ => none
    | _ => none

/-! ### The client-side stream codec (the `proc.stream` handler of
src/src/app.tsx) -/

/-- Split a character stream at newline delimiters the way
`stdoutBuffer.split('\n')` followed by `lines.pop()` does: the first
component is the list of complete lines, the second the trailing partial
line kept in the buffer. -/
def framePartition : List Char → List (List Char) × List Char
  | [] => ([], [])
  | c :: rest =>
    if c = '\n' then
      let p := framePartition rest
      ([] :: p.1, p.2)
    else
      let p := framePartition rest
      match p.1 with
      | [] => ([], c :: p.2)
      | l :: ls => ((c :: l) :: ls, p.2)

/-- Prepend a carried-over partial line to the first of a list of lines;
with no line to attach to, the carry-over stays in the buffer. -/
def consFirst (r : List Char) (ls : List (List Char)) : List (List Char) :=
  match ls with
  | [] => []
  | l :: t => (r ++ l) :: t

/-- Whitespace as recognised by JavaScript's `trim`, restricted to the
characters that can occur inside one framed line. -/
def isSpaceChar (c : Char) : Bool :=
  c = ' ' || c = '\t' || c = '\r' || c = '\x0b' || c = '\x0c' || c = '\n'

/-- JavaScript `line.trim()`. -/
def jsTrim (l : List Char) : List Char :=
  List.reverse (List.dropWhile isSpaceChar (List.reverse (List.dropWhile isSpaceChar l)))

/-- Decode the complete lines of one stream delivery: a line that is blank
after trimming is skipped, a line that fails to JSON-parse is logged and
dropped, every other line yields its Message (src/src/app.tsx lines 56-66). -/
def decodeLines (lines : List (List Char)) : List Message :=
  lines.filterMap fun l => if jsTrim l = [] then none else parseMessageLine l

/-- One invocation of the `proc.stream` handler: append the delivered data
to the carry-over buffer, keep the trailing partial line as the new buffer,
and decode every complete line. -/
def procStream (buffer : List Char) (data : List Char) : List Char × List Message :=
  let p := framePartition (buffer ++ data)
  (p.2, decodeLines p.1)

/-- Feeding a sequence of stream deliveries through the handler, collecting
all decoded Messages in order. -/
def procStreamAll (buffer : List Char) : List (List Char) → List Char × List Message
  | [] => (buffer, [])
  | d :: ds =>
    let p := procStream buffer d
    let q := procStreamAll p.1 ds
    (q.1, p.2 ++ q.2)

/-! ### The agent-side inbound stream (bufio.Scanner over stdin) -/

/-- One observable item of the Go process's inbound stream: a complete
line, or the point at which the scanner fails with a (persistent) read
error.  End of input is the end of the list. -/
inductive RecvItem where
  | line (s : List Char)
  | ioErr
deriving DecidableEq, Repr

/-- The error values the embedded program can surface. -/
inductive ProgErr where
  | ioError
  | decodeError
  | writeError
  | engineError
deriving DecidableEq, Repr

/-- recvMessage of src/main.go (lines 51-62) over the modelled stream.
Mirrors `bufio.Scanner`: at end of input `Scan` returns false and `Err`
returns nil, so the zero Message is returned with no error; a scanner read
error is returned and the scanner stays failed; on a line, a JSON decode
failure is returned as an error with the zero Message (`json.Unmarshal`
validates the input before filling the target). -/
def recvMessage : List RecvItem → (Message × Option ProgErr) × List RecvItem
  | [] => ((default, none), [])
  | RecvItem.ioErr :: rest => ((default, some ProgErr.ioError), RecvItem.ioErr :: rest)
  | RecvItem.line s :: rest =>
    match parseMessageLine s with
    | some m => ((m, none), rest)
    | none => ((default, some ProgErr.decodeError), rest)

/-! ### The prompt turn controller and its callbacks (handlePrompt of
src/main.go, lines 148-205) -/

/-- The turn-local cancellation state of one prompt: `promptCanceled` is
the closure-captured boolean of handlePrompt; `ctxCanceled` is whether
`promptCtx` has been cancelled (`promptCtx.Err() == context.Canceled`).
The deny branch of the gate performs both `promptCanceled = true` and
`cancelPrompt()`, and nothing else touches either within a turn. -/
structure TurnState where
  promptCanceled : Bool
  ctxCanceled : Bool
deriving DecidableEq, Repr

/-- One callback invocation the external agent engine performs during a
prompt turn, through the three hooks of `host.PromptWithCallbacks`. -/
inductive EngineEvent where
  | toolCall (name args : String)
  | toolResult (name args result : String) (isError : Bool)
  | chunk (text : String)
deriving DecidableEq, Repr

/-- An entry of the observable protocol trace: an outbound message write
(attempted on stdout), or the gate consuming one inbound reply (recording
the Message value the gate's `recvMessage` produced). -/
inductive Action where
  | emit (m : Message)
  | consume (m : Message)
deriving DecidableEq, Repr

/-- The log records relevant to the claims: a failed stdout write, a failed
gate read, and the protocol-leniency warning for an unexpected kind. -/
inductive LogEvent where
  | writeErr
  | recvErr
  | unexpectedKind
deriving DecidableEq, Repr

/-- Log output of one `sendMessage` call under the write-outcome oracle
`w`: a failed write is logged and nothing else happens (the source checks
the returned error only to log it). -/
def sendLog (w : Nat → Bool) (i : Nat) : List LogEvent :=
  if w i then [] else [LogEvent.writeErr]

/-- Result of running one callback or a callback sequence: the turn state,
the scanner position, the number of writes performed so far, and the
actions and log records produced. -/
structure TurnStep where
  st : TurnState
  scanner : List RecvItem
  wIdx : Nat
  actions : List Action
  logs : List LogEvent
deriving DecidableEq, Repr

/-- The onToolCall callback (src/main.go lines 155-174): format the
human-readable description, emit `confirm-tool-run`, then perform exactly
one blocking read of the inbound stream; `deny-tool-run` sets the
cancellation flag and cancels the prompt context, `allow-tool-run` returns
with no state change, anything else (including a read failure, which
leaves the zero Message) is logged and also returns with no state
change. -/
def onToolCall (w : Nat → Bool) (name args : String) (st : TurnState)
    (scanner : List RecvItem) (i : Nat) : TurnStep :=
  let details := "Run tool: " ++ name ++ " with args: " ++ args
  let sendLogs := sendLog w i
  let r := recvMessage scanner
  let msg := r.1.1
  let recvLogs := if (r.1.2).isSome then [LogEvent.recvErr] else []
  let d :=
    if msg.MsgType = msgTypeDeny then (TurnState.mk true true, ([] : List LogEvent))
    else if msg.MsgType = msgTypeAllow then (st, ([] : List LogEvent))
    else (st, [LogEvent.unexpectedKind])
  ⟨d.1, r.2, i + 1,
    [Action.emit ⟨msgTypeConfirm, details⟩, Action.consume msg],
    sendLogs ++ recvLogs ++ d.2⟩

/-- The onToolResult callback (src/main.go lines 175-194): three sequential
return blocks — `isError` emits `tool-result-failed`, else a cancelled
prompt context emits `tool-result-canceled`, else `tool-result-ok`; each
carries the tool name and each is exactly one write. -/
def onToolResult (w : Nat → Bool) (name : String) (isError : Bool)
    (st : TurnState) (scanner : List RecvItem) (i : Nat) : TurnStep :=
  if isError then
    ⟨st, scanner, i + 1, [Action.emit ⟨msgTypeResultFailed, name⟩], sendLog w i⟩
  else if st.ctxCanceled then
    ⟨st, scanner, i + 1, [Action.emit ⟨msgTypeResultCanceled, name⟩], sendLog w i⟩
  else
    ⟨st, scanner, i + 1, [Action.emit ⟨msgTypeResultOK, name⟩], sendLog w i⟩

/-- The onStreaming callback (src/main.go lines 195-200): one `chunk`
write with the text verbatim. -/
def onStreaming (w : Nat → Bool) (text : String) (st : TurnState)
    (scanner : List RecvItem) (i : Nat) : TurnStep :=
  ⟨st, scanner, i + 1, [Action.emit ⟨msgTypeChunk, text⟩], sendLog w i⟩

/-- Dispatch one engine callback invocation to its handler. -/
def stepEvent (w : Nat → Bool) (st : TurnState) (scanner : List RecvItem)
    (i : Nat) : EngineEvent → TurnStep
  | EngineEvent.toolCall n a => onToolCall w n a st scanner i
  | EngineEvent.toolResult n _ _ e => onToolResult w n e st scanner i
  | EngineEvent.chunk t => onStreaming w t st scanner i

/-- Run the engine's callback sequence of one prompt turn.  The engine
performs its callbacks synchronously, one at a time (the engine contract
the source relies on), so the turn is their left-to-right composition. -/
def runEvents (w : Nat → Bool) : TurnState → List RecvItem → Nat →
    List EngineEvent → TurnStep
  | st, sc, i, [] => ⟨st, sc, i, [], []⟩
  | st, sc, i, ev :: evs =>
    let r := stepEvent w st sc i ev
    let rest := runEvents w r.st r.scanner r.wIdx evs
    ⟨rest.st, rest.scanner, rest.wIdx, r.actions ++ rest.actions,
      r.logs ++ rest.logs⟩

/-- The engine side of one prompt invocation, as observable through
`host.PromptWithCallbacks`: the callback invocations it performs, and
whether the invocation returns an error. -/
structure TurnBehavior where
  events : List EngineEvent
  fails : Bool
deriving DecidableEq, Repr

/-- Equality of program return values is decidable. -/
instance : DecidableEq (Except ProgErr Unit) := fun a b => by
  cases a with
  | error e1 =>
    cases b with
    | error e2 =>
      exact match decEq e1 e2 with
        | isTrue h => isTrue (h ▸ rfl)
        | isFalse h => isFalse (fun hh => h (by injection hh))
    | ok _ => exact isFalse (fun hh => Except.noConfusion hh)
  | ok u =>
    cases b with
    | error _ => exact isFalse (fun hh => Except.noConfusion hh)
    | ok v => exact isTrue (by cases u; cases v; rfl)

/-- Result of one handlePrompt call. -/
structure PromptResult where
  ret : Except ProgErr Unit
  finalState : TurnState
  scanner : List RecvItem
  wIdx : Nat
  actions : List Action
  logs : List LogEvent
deriving DecidableEq, Repr

/-- handlePrompt of src/main.go (lines 148-205): fresh turn state with both
cancellation indicators false, run the engine invocation (its callbacks,
then its returned error), and apply the return contract of lines 201-204:
an engine error with `promptCanceled` still false is returned, any other
outcome is nil. -/
def handlePrompt (w : Nat → Bool) (beh : TurnBehavior)
    (sc : List RecvItem) (i : Nat) : PromptResult :=
  let run := runEvents w ⟨false, false⟩ sc i beh.events
  let ret :=
    if beh.fails && !run.st.promptCanceled then
      Except.error ProgErr.engineError
    else Except.ok ()
  ⟨ret, run.st, run.scanner, run.wIdx, run.actions, run.logs⟩

/-! ### The session loop (chatLoop of src/main.go, lines 119-146) -/

/-- The body of chatLoop, fuel-bounded because the source loop is
unbounded: `none` means the loop is still running after `fuel` iterations.
Each iteration sends `ready` (a failed write returns its error), reads one
inbound message (a returned error is fatal), then dispatches on the kind:
`quit` returns nil, `prompt` runs handlePrompt (whose error is fatal) and
continues with the next engine behavior, anything else — including the
zero Message produced at end of input — logs a warning and continues. -/
def chatLoopBody (w : Nat → Bool) : Nat → List TurnBehavior → List RecvItem →
    Nat → Option (Except ProgErr Unit × List Action × List LogEvent)
  | 0, _, _, _ => none
  | fuel + 1, behs, sc, i =>
    let ready := Action.emit ⟨msgTypeReady, ""⟩
    if w i = false then some (Except.error ProgErr.writeError, [ready], [])
    else
      let r := recvMessage sc
      match r.1.2 with
      | some e => some (Except.error e, [ready], [])
      | none =>
        if r.1.1.MsgType = msgTypeQuit then some (Except.ok (), [ready], [])
        else if r.1.1.MsgType = msgTypePrompt then
          let p := handlePrompt w (behs.headD ⟨[], false⟩) r.2 (i + 1)
          match p.ret with
          | Except.error e => some (Except.error e, ready :: p.actions, p.logs)
          | Except.ok _ =>
            match chatLoopBody w fuel behs.tail p.scanner p.wIdx with
            | none => none
            | some (ret, acts, logs) =>
              some (ret, ready :: (p.actions ++ acts), p.logs ++ logs)
        else
          match chatLoopBody w fuel behs r.2 (i + 1) with
          | none => none
          | some (ret, acts, logs) =>
            some (ret, ready :: acts, LogEvent.unexpectedKind :: logs)

/-- Result of a terminated session loop.  `closed` records that the
deferred `host.Close()` ran before chatLoop returned. -/
structure LoopResult where
  ret : Except ProgErr Unit
  actions : List Action
  logs : List LogEvent
  closed : Bool
deriving DecidableEq, Repr

/-- chatLoop of src/main.go: the loop body wrapped in the deferred engine
release, which runs on every return path. -/
def chatLoop (w : Nat → Bool) (fuel : Nat) (behs : List TurnBehavior)
    (sc : List RecvItem) : Option LoopResult :=
  match chatLoopBody w fuel behs sc 0 with
  | none => none
  | some (ret, acts, logs) => some ⟨ret, acts, logs, true⟩

/-! ### Auxiliary definitions for the trace invariants -/

/-- Number of tool-approval requests pending after a trace prefix: a
`confirm-tool-run` emission opens one, a consumed reply closes it. -/
def pendingAux : Nat → List Action → Nat
  | pending, [] => pending
  | pending, Action.emit m :: rest =>
    pendingAux (if m.MsgType = msgTypeConfirm then pending + 1 else pending) rest
  | pending, Action.consume _ :: rest => pendingAux (pending - 1) rest

/-- Pending approvals at the end of a trace prefix, starting from none. -/
def pendingCount (l : List Action) : Nat := pendingAux 0 l

/-- Traces in which every `confirm-tool-run` emission is immediately
followed by the consumption of one inbound reply, and replies are consumed
nowhere else. -/
inductive GateShaped : List Action → Prop
  | nil : GateShaped []
  | emitStep (m : Message) (rest : List Action)
      (h : m.MsgType ≠ msgTypeConfirm) (hr : GateShaped rest) :
      GateShaped (Action.emit m :: rest)
  | gateStep (m rm : Message) (rest : List Action) (hr : GateShaped rest) :
      GateShaped (Action.emit m :: Action.consume rm :: rest)

/-! ### Concrete wire lines used by witnesses and counterexamples -/

/-- The wire line `\x7b"msg_type":"prompt","content":"hi"\x7d`. -/
def promptLine : List Char :=
  String.toList "\x7b\"msg_type\":\"prompt\",\"content\":\"hi\"\x7d"

/-- The wire line `\x7b"msg_type":"quit","content":""\x7d`. -/
def quitLine : List Char :=
  String.toList "\x7b\"msg_type\":\"quit\",\"content\":\"\"\x7d"

/-- The wire line `\x7b"msg_type":"allow-tool-run","content":""\x7d`. -/
def allowLine : List Char :=
  String.toList "\x7b\"msg_type\":\"allow-tool-run\",\"content\":\"\"\x7d"

/-- The wire line `\x7b"msg_type":"deny-tool-run","content":""\x7d`. -/
def denyLine : List Char :=
  String.toList "\x7b\"msg_type\":\"deny-tool-run\",\"content\":\"\"\x7d"

/-- A syntactically valid wire line of a kind that is not part of the
protocol: `\x7b"msg_type":"hello","content":""\x7d`. -/
def unknownLine : List Char :=
  String.toList "\x7b\"msg_type\":\"hello\",\"content\":\"\"\x7d"

/-- A malformed (non-JSON) inbound line. -/
def badLine : List Char := String.toList "hello there"

/-! ## Lemmas about the JSON string codec -/

/-- Unfolding of `parseStringBody` at a cons cell. -/
theorem parseStringBody_cons (c : Char) (rest : List Char) :
    parseStringBody (c :: rest) =
      (if c = '"' then some ([], rest)
       else if c = '\\' then
         match rest with
         | [] => none
         | e :: rest2 =>
           if e = 'u' then
             match rest2 with
             | h1 :: h2 :: h3 :: h4 :: rest3 =>
               match hexVal h1, hexVal h2, hexVal h3, hexVal h4 with
               | some v1, some v2, some v3, some v4 =>
                 match parseStringBody rest3 with
                 | some (cs, r) =>
                   some (Char.ofNat (((v1 * 16 + v2) * 16 + v3) * 16 + v4) :: cs, r)
                 | none => none
               | _, _, _, _ => none
             | _ => none
           else
             match simpleUnescape e with
             | some uc =>
               match parseStringBody rest2 with
               | some (cs, r) => some (uc :: cs, r)
               | none => none
             | none => none
       else if c.toNat < 32 then none
       else
         match parseStringBody rest with
         | some (cs, r) => some (c :: cs, r)
         | none => none) := by
  rw [parseStringBody.eq_def]

/-- A hexadecimal digit emitted by the encoder reads back as its value. -/
theorem hexVal_hexDigitChar {d : Nat} (h : d < 16) :
    hexVal (hexDigitChar d) = some d := by
  interval_cases d <;> decide

/-- A hexadecimal digit character is never a newline. -/
theorem hexDigitChar_ne_nl {d : Nat} (h : d < 16) : hexDigitChar d ≠ '\n' := by
  interval_cases d <;> decide

/-- Escaping never produces a raw newline character, whatever the input
character: this is what makes one encoded message exactly one frame. -/
theorem nl_not_mem_escapeChar (c : Char) : '\n' ∉ escapeChar c := by
  unfold escapeChar
  split_ifs with h1 h2 h3 h4 h5 h6 h7
  · decide
  · decide
  · decide
  · decide
  · decide
  · simp only [Bool.or_eq_true, decide_eq_true_eq] at h6
    have hb : c.toNat ≤ 62 := by
      rcases h6 with ((h | h) | h) | h
      · omega
      · subst h; decide
      · subst h; decide
      · subst h; decide
    intro hm
    simp only [List.mem_cons, List.not_mem_nil, or_false] at hm
    rcases hm with h | h | h | h | h | h
    · exact absurd h (by decide)
    · exact absurd h (by decide)
    · exact absurd h (by decide)
    · exact absurd h (by decide)
    · exact hexDigitChar_ne_nl (by omega) h.symm
    · exact hexDigitChar_ne_nl (by omega) h.symm
  · simp only [Bool.or_eq_true, decide_eq_true_eq] at h7
    intro hm
    simp only [List.mem_cons, List.not_mem_nil, or_false] at hm
    rcases hm with h | h | h | h | h | h
    · exact absurd h (by decide)
    · exact absurd h (by decide)
    · exact absurd h (by decide)
    · exact absurd h (by decide)
    · exact absurd h (by decide)
    · exact hexDigitChar_ne_nl (by omega) h.symm
  · intro hm
    simp only [List.mem_singleton] at hm
    exact h3 hm.symm

/-- Escaping a character sequence never produces a raw newline. -/
theorem nl_not_mem_escapeList (s : List Char) : '\n' ∉ escapeList s := by
  induction s with
  | nil => simp [escapeList]
  | cons c cs ih =>
    rw [escapeList]
    intro hm
    rcases List.mem_append.mp hm with h | h
    · exact nl_not_mem_escapeChar c h
    · exact ih h

/-- An encoded message contains no raw newline: the trailing newline that
sendMessage appends is the frame's only delimiter. -/
theorem nl_not_mem_encodeMessage (m : Message) : '\n' ∉ encodeMessage m := by
  intro hm
  rw [encodeMessage] at hm
  simp only [List.append_assoc, List.mem_append] at hm
  rcases hm with h | h | h | h | h
  · exact absurd h (by decide)
  · rw [jsonQuote] at h
    rcases List.mem_cons.mp h with h | h
    · exact absurd h (by decide)
    · rcases List.mem_append.mp h with h | h
      · exact nl_not_mem_escapeList _ h
      · exact absurd h (by decide)
  · exact absurd h (by decide)
  · rw [jsonQuote] at h
    rcases List.mem_cons.mp h with h | h
    · exact absurd h (by decide)
    · rcases List.mem_append.mp h with h | h
      · exact nl_not_mem_escapeList _ h
      · exact absurd h (by decide)
  · exact absurd h (by decide)

/-- Parsing one escaped character from the front of a string body undoes
the escaping and continues with the rest. -/
theorem parseStringBody_escapeChar (c : Char) (rest : List Char) :
    parseStringBody (escapeChar c ++ rest) =
      match parseStringBody rest with
      | some (cs, r) => some (c :: cs, r)
      | none => none := by
  unfold escapeChar
  split_ifs with h1 h2 h3 h4 h5 h6 h7
  · subst h1
    cases hr : parseStringBody rest with
    | none => simp [parseStringBody_cons, simpleUnescape, hr]
    | some p => cases p; simp [parseStringBody_cons, simpleUnescape, hr]
  · subst h2
    cases hr : parseStringBody rest with
    | none => simp [parseStringBody_cons, simpleUnescape, hr]
    | some p => cases p; simp [parseStringBody_cons, simpleUnescape, hr]
  · subst h3
    cases hr : parseStringBody rest with
    | none => simp [parseStringBody_cons, simpleUnescape, hr]
    | some p => cases p; simp [parseStringBody_cons, simpleUnescape, hr]
  · subst h4
    cases hr : parseStringBody rest with
    | none => simp [parseStringBody_cons, simpleUnescape, hr]
    | some p => cases p; simp [parseStringBody_cons, simpleUnescape, hr]
  · subst h5
    cases hr : parseStringBody rest with
    | none => simp [parseStringBody_cons, simpleUnescape, hr]
    | some p => cases p; simp [parseStringBody_cons, simpleUnescape, hr]
  · simp only [Bool.or_eq_true, decide_eq_true_eq] at h6
    have hb : c.toNat ≤ 62 := by
      rcases h6 with ((h | h) | h) | h
      · omega
      · subst h; decide
      · subst h; decide
      · subst h; decide
    have d0 : hexVal '0' = some 0 := by decide
    have d1 : hexVal (hexDigitChar (c.toNat / 16)) = some (c.toNat / 16) :=
      hexVal_hexDigitChar (by omega)
    have d2 : hexVal (hexDigitChar (c.toNat % 16)) = some (c.toNat % 16) :=
      hexVal_hexDigitChar (by omega)
    have harith : c.toNat / 16 * 16 + c.toNat % 16 = c.toNat := by omega
    cases hr : parseStringBody rest with
    | none => simp [parseStringBody_cons, d0, d1, d2, hr]
    | some p =>
      cases p
      simp [parseStringBody_cons, d0, d1, d2, hr, harith, Char.ofNat_toNat]
  · simp only [Bool.or_eq_true, decide_eq_true_eq] at h7
    have d0 : hexVal '0' = some 0 := by decide
    have d2v : hexVal '2' = some 2 := by decide
    have dmod : hexVal (hexDigitChar (c.toNat % 16)) = some (c.toNat % 16) :=
      hexVal_hexDigitChar (by omega)
    have harith : 8224 + c.toNat % 16 = c.toNat := by
      rcases h7 with h | h <;> omega
    cases hr : parseStringBody rest with
    | none => simp [parseStringBody_cons, d0, d2v, dmod, hr]
    | some p =>
      cases p
      simp [parseStringBody_cons, d0, d2v, dmod, hr, harith, Char.ofNat_toNat]
  · simp only [Bool.or_eq_true, decide_eq_true_eq, not_or] at h6
    obtain ⟨⟨⟨hge, _⟩, _⟩, _⟩ := h6
    cases hr : parseStringBody rest with
    | none => simp [parseStringBody_cons, h1, h2, hr, hge]
    | some p => cases p; simp [parseStringBody_cons, h1, h2, hr, hge]

/-- Parsing an escaped run stops exactly at the closing quote and returns
the original characters: the string codec round-trip. -/
theorem parseStringBody_escapeList (s : List Char) (rest : List Char) :
    parseStringBody (escapeList s ++ '"' :: rest) = some (s, rest) := by
  induction s with
  | nil => simp [escapeList, parseStringBody_cons]
  | cons c cs ih =>
    rw [escapeList, List.append_assoc, parseStringBody_escapeChar, ih]

/-- Stripping an expected literal off an input that starts with it leaves
the tail. -/
theorem stripLit_append (p s : List Char) : stripLit p (p ++ s) = some s := by
  induction p with
  | nil => rfl
  | cons c cs ih => simp [stripLit, ih]

/-- Strings rebuild from their character lists. -/
theorem string_mk_toList (s : String) : String.mk s.toList = s := rfl

/-- The message codec round-trip at the line level: decoding an encoded
Message recovers it exactly, for every kind string and every content
string. -/
theorem parseMessageLine_encodeMessage (m : Message) :
    parseMessageLine (encodeMessage m) = some m := by
  obtain ⟨t, cnt⟩ := m
  have h1 : encodeMessage ⟨t, cnt⟩
      = keyHead ++ ('"' :: (escapeList t.toList ++ '"' ::
          (keyMid ++ ('"' :: (escapeList cnt.toList ++ '"' :: ['\x7d']))))) := by
    simp [encodeMessage, jsonQuote, List.append_assoc]
  rw [parseMessageLine, h1, stripLit_append]
  simp only [parseStringBody_escapeList, stripLit_append]
  rfl

/-! ## Lemmas about the client-side stream codec -/

/-- Unfolding of `framePartition` at a cons cell. -/
theorem framePartition_cons (c : Char) (rest : List Char) :
    framePartition (c :: rest) =
      (if c = '\n' then ([] :: (framePartition rest).1, (framePartition rest).2)
       else
         match (framePartition rest).1 with
         | [] => ([], c :: (framePartition rest).2)
         | l :: ls => ((c :: l) :: ls, (framePartition rest).2)) := by
  rw [framePartition.eq_def]

/-- A newline-free input produces no complete line: everything stays in
the carry-over buffer. -/
theorem framePartition_no_nl {l : List Char} (h : '\n' ∉ l) :
    framePartition l = ([], l) := by
  induction l with
  | nil => rfl
  | cons c cs ih =>
    have hc : ¬c = '\n' := fun e => h (e ▸ List.mem_cons_self c cs)
    have hcs : '\n' ∉ cs := fun hm => h (List.mem_cons_of_mem c hm)
    simp [framePartition_cons, hc, ih hcs]

/-- The carry-over buffer left by framing never contains a newline. -/
theorem nl_not_mem_framePartition_snd (l : List Char) :
    '\n' ∉ (framePartition l).2 := by
  induction l with
  | nil => simp [framePartition]
  | cons c cs ih =>
    by_cases hc : c = '\n'
    · subst hc
      simpa [framePartition_cons] using ih
    · cases hp : (framePartition cs).1 with
      | nil =>
        simp only [framePartition_cons, if_neg hc, hp]
        intro hm
        rcases List.mem_cons.mp hm with h | h
        · exact hc h.symm
        · exact ih h
      | cons l0 ls =>
        simp only [framePartition_cons, if_neg hc, hp]
        exact ih

/-- How framing distributes over concatenation of two deliveries: the
completed lines of the first part, then the lines of the second with the
first part's carry-over attached to the front of the first one; the final
buffer absorbs the earlier carry-over only when the second part completed
no line. -/
theorem framePartition_append (a b : List Char) :
    framePartition (a ++ b) =
      ((framePartition a).1 ++ consFirst (framePartition a).2 (framePartition b).1,
        if (framePartition b).1 = [] then (framePartition a).2 ++ (framePartition b).2
        else (framePartition b).2) := by
  induction a with
  | nil =>
    rcases hb : framePartition b with ⟨bl, br⟩
    rw [List.nil_append, hb]
    cases bl <;> simp [framePartition, consFirst]
  | cons c cs ih =>
    by_cases hc : c = '\n'
    · subst hc
      rcases hb : framePartition b with ⟨bl, br⟩
      rw [List.cons_append, framePartition_cons, if_pos rfl, ih, hb,
        framePartition_cons, if_pos rfl]
      cases bl <;> simp [consFirst]
    · rcases hcs : framePartition cs with ⟨cl, cr⟩
      rcases hb : framePartition b with ⟨bl, br⟩
      rw [List.cons_append, framePartition_cons, if_neg hc, ih, hcs, hb,
        framePartition_cons, if_neg hc, hcs]
      cases cl <;> cases bl <;> simp [consFirst]

/-- Decoding distributes over appended line lists. -/
theorem decodeLines_append (l1 l2 : List (List Char)) :
    decodeLines (l1 ++ l2) = decodeLines l1 ++ decodeLines l2 := by
  simp [decodeLines, List.filterMap_append]

/-- Splitting one delivery into two consecutive deliveries decodes the
same messages and leaves the same buffer: the codec is insensitive to
where the byte stream is cut. -/
theorem procStream_append (st a b : List Char) :
    procStream st (a ++ b) =
      ((procStream (procStream st a).1 b).1,
        (procStream st a).2 ++ (procStream (procStream st a).1 b).2) := by
  have hr1 : framePartition (framePartition (st ++ a)).2
      = ([], (framePartition (st ++ a)).2) :=
    framePartition_no_nl (nl_not_mem_framePartition_snd _)
  have h2 := framePartition_append (framePartition (st ++ a)).2 b
  rw [hr1] at h2
  have h1 := framePartition_append (st ++ a) b
  simp only [procStream]
  rw [← List.append_assoc, h1, h2]
  simp [decodeLines_append]

/-- Feeding a sequence of deliveries one by one equals feeding their
concatenation at once, from any newline-free starting buffer. -/
theorem procStreamAll_eq {st : List Char} (h : '\n' ∉ st)
    (chunks : List (List Char)) :
    procStreamAll st chunks = procStream st chunks.flatten := by
  induction chunks generalizing st with
  | nil => simp [procStreamAll, procStream, framePartition_no_nl h, decodeLines]
  | cons d ds ih =>
    have hst : '\n' ∉ (procStream st d).1 := by
      simp only [procStream]
      exact nl_not_mem_framePartition_snd _
    rw [procStreamAll, List.flatten_cons, procStream_append st d ds.flatten, ih hst]

/-- A trimmed line that starts with a non-space character is not blank. -/
theorem jsTrim_cons_ne_nil {c : Char} (l : List Char) (h : isSpaceChar c = false) :
    jsTrim (c :: l) ≠ [] := by
  unfold jsTrim
  rw [List.dropWhile_cons_of_neg (by simp [h])]
  intro hcon
  rw [List.reverse_eq_nil_iff, List.dropWhile_eq_nil_iff] at hcon
  have hmem : c ∈ (c :: l).reverse := by simp
  have := hcon c hmem
  simp [h] at this

/-- Framing a single encoded message yields exactly its line and an empty
buffer. -/
theorem framePartition_sendMessage (m : Message) :
    framePartition (sendMessageChars m) = ([encodeMessage m], []) := by
  have h1 := framePartition_append (encodeMessage m) ['\n']
  have h2 : framePartition ['\n'] = ([[]], []) := rfl
  rw [framePartition_no_nl (nl_not_mem_encodeMessage m), h2] at h1
  simpa [sendMessageChars, consFirst] using h1

/-- Decoding the single line of one encoded message yields that message. -/
theorem decodeLines_encodeMessage (m : Message) :
    decodeLines [encodeMessage m] = [m] := by
  have hhead : encodeMessage m
      = '\x7b' :: ("\"msg_type\":".toList ++ jsonQuote m.MsgType ++ keyMid
          ++ jsonQuote m.Content ++ ['\x7d']) := by
    simp [encodeMessage, keyHead]
  have htrim : jsTrim (encodeMessage m) ≠ [] := by
    rw [hhead]
    exact jsTrim_cons_ne_nil _ (by decide)
  simp [decodeLines, htrim, parseMessageLine_encodeMessage]

/-! ## Lemmas about the prompt turn controller -/

/-- Unfolding of `runEvents` on an empty callback sequence. -/
theorem runEvents_nil (w : Nat → Bool) (st : TurnState) (sc : List RecvItem)
    (i : Nat) : runEvents w st sc i [] = ⟨st, sc, i, [], []⟩ := rfl

/-- Unfolding of `runEvents` on one callback followed by the rest. -/
theorem runEvents_cons (w : Nat → Bool) (st : TurnState) (sc : List RecvItem)
    (i : Nat) (ev : EngineEvent) (evs : List EngineEvent) :
    runEvents w st sc i (ev :: evs) =
      ⟨(runEvents w (stepEvent w st sc i ev).st (stepEvent w st sc i ev).scanner
          (stepEvent w st sc i ev).wIdx evs).st,
       (runEvents w (stepEvent w st sc i ev).st (stepEvent w st sc i ev).scanner
          (stepEvent w st sc i ev).wIdx evs).scanner,
       (runEvents w (stepEvent w st sc i ev).st (stepEvent w st sc i ev).scanner
          (stepEvent w st sc i ev).wIdx evs).wIdx,
       (stepEvent w st sc i ev).actions ++
         (runEvents w (stepEvent w st sc i ev).st (stepEvent w st sc i ev).scanner
            (stepEvent w st sc i ev).wIdx evs).actions,
       (stepEvent w st sc i ev).logs ++
         (runEvents w (stepEvent w st sc i ev).st (stepEvent w st sc i ev).scanner
            (stepEvent w st sc i ev).wIdx evs).logs⟩ := rfl

/-- One callback's step leaves the two cancellation indicators set once
they are set: inside a turn nothing ever clears them. -/
theorem stepEvent_ctx_mono (w : Nat → Bool) (st : TurnState) (sc : List RecvItem)
    (i : Nat) (ev : EngineEvent) (h : st.ctxCanceled = true) :
    (stepEvent w st sc i ev).st.ctxCanceled = true := by
  cases ev with
  | toolCall n a =>
    simp only [stepEvent, onToolCall]
    split_ifs <;> simp [h]
  | toolResult n a r e =>
    simp only [stepEvent, onToolResult]
    split_ifs <;> simp [h]
  | chunk t => simpa [stepEvent, onStreaming] using h

/-- In a turn whose prompt context is already cancelled, no later
completion callback ever emits `tool-result-ok`. -/
theorem canceled_no_ok (w : Nat → Bool) :
    ∀ (evs : List EngineEvent) (st : TurnState) (sc : List RecvItem) (i : Nat),
      st.ctxCanceled = true →
      ∀ m, Action.emit m ∈ (runEvents w st sc i evs).actions →
        m.MsgType ≠ msgTypeResultOK := by
  intro evs
  induction evs with
  | nil => intro st sc i h m hm; simp [runEvents_nil] at hm
  | cons ev evs ih =>
    intro st sc i h m hm
    rw [runEvents_cons] at hm
    simp only at hm
    rcases List.mem_append.mp hm with hstep | hrest
    · cases ev with
      | toolCall n a =>
        simp only [stepEvent, onToolCall, List.mem_cons, List.not_mem_nil,
          or_false] at hstep
        rcases hstep with he | he
        · cases he
          exact (by decide : msgTypeConfirm ≠ msgTypeResultOK)
        · cases he
      | toolResult n a r e =>
        simp only [stepEvent, onToolResult] at hstep
        by_cases he : e
        · simp only [if_pos he, List.mem_singleton] at hstep
          cases hstep
          exact (by decide : msgTypeResultFailed ≠ msgTypeResultOK)
        · simp only [if_neg he, h, if_true, if_pos, List.mem_singleton] at hstep
          cases hstep
          exact (by decide : msgTypeResultCanceled ≠ msgTypeResultOK)
      | chunk t =>
        simp only [stepEvent, onStreaming, List.mem_singleton] at hstep
        cases hstep
        exact (by decide : msgTypeChunk ≠ msgTypeResultOK)
    · exact ih _ _ _ (stepEvent_ctx_mono w st sc i ev h) m hrest

/-- C2's core: if the trace of a turn suffix contains the consumption of a
`deny-tool-run` reply, every outbound message emitted after that point has
a kind other than `tool-result-ok`. -/
theorem deny_consumed_no_ok (w : Nat → Bool) :
    ∀ (evs : List EngineEvent) (st : TurnState) (sc : List RecvItem) (i : Nat)
      (p q : List Action) (dm : Message),
      (runEvents w st sc i evs).actions = p ++ Action.consume dm :: q →
      dm.MsgType = msgTypeDeny →
      ∀ m, Action.emit m ∈ q → m.MsgType ≠ msgTypeResultOK := by
  intro evs
  induction evs with
  | nil =>
    intro st sc i p q dm hsplit hdeny m hm
    rw [runEvents_nil] at hsplit
    cases p <;> simp at hsplit
  | cons ev evs ih =>
    intro st sc i p q dm hsplit hdeny m hm
    rw [runEvents_cons] at hsplit
    simp only at hsplit
    cases ev with
    | toolCall n a =>
      simp only [stepEvent, onToolCall, List.cons_append, List.nil_append] at hsplit
      cases p with
      | nil => simp at hsplit
      | cons x p' =>
        rw [List.cons_append] at hsplit
        injection hsplit with hx hsplit2
        cases p' with
        | nil =>
          injection hsplit2 with hy hq
          injection hy with hmsg
          subst hq
          refine canceled_no_ok w evs _ _ _ ?_ m hm
          subst hmsg
          simp only [stepEvent, onToolCall, hdeny, if_pos]
        | cons y p'' =>
          injection hsplit2 with hy hsplit3
          exact ih _ _ _ p'' q dm hsplit3 hdeny m hm
    | toolResult n a r e =>
      have hact : (stepEvent w st sc i (EngineEvent.toolResult n a r e)).actions
          = [Action.emit ⟨if e then msgTypeResultFailed
              else if st.ctxCanceled then msgTypeResultCanceled
              else msgTypeResultOK, n⟩] := by
        simp only [stepEvent, onToolResult]
        split_ifs <;> rfl
      rw [hact, List.cons_append, List.nil_append] at hsplit
      cases p with
      | nil => simp at hsplit
      | cons x p' =>
        injection hsplit with hx hsplit2
        exact ih _ _ _ p' q dm hsplit2 hdeny m hm
    | chunk t =>
      simp only [stepEvent, onStreaming, List.cons_append, List.nil_append] at hsplit
      cases p with
      | nil => simp at hsplit
      | cons x p' =>
        injection hsplit with hx hsplit2
        exact ih _ _ _ p' q dm hsplit2 hdeny m hm

/-- C1: on tool-call completed, the classification follows the precedence
isError, then the cancellation state read at the moment of completion,
then ok — and the callback emits exactly one outbound result message,
touching neither the turn state nor the inbound stream.

Claim C1. -/
theorem claim_C1_tool_result_classification (w : Nat → Bool) (st : TurnState)
    (sc : List RecvItem) (i : Nat) (n a r : String) (e : Bool)
    (evs : List EngineEvent) :
    runEvents w st sc i (EngineEvent.toolResult n a r e :: evs) =
      ⟨(runEvents w st sc (i + 1) evs).st,
       (runEvents w st sc (i + 1) evs).scanner,
       (runEvents w st sc (i + 1) evs).wIdx,
       Action.emit ⟨if e then msgTypeResultFailed
         else if st.ctxCanceled then msgTypeResultCanceled
         else msgTypeResultOK, n⟩ :: (runEvents w st sc (i + 1) evs).actions,
       sendLog w i ++ (runEvents w st sc (i + 1) evs).logs⟩ := by
  rw [runEvents_cons]
  have hstep : stepEvent w st sc i (EngineEvent.toolResult n a r e)
      = ⟨st, sc, i + 1,
          [Action.emit ⟨if e then msgTypeResultFailed
            else if st.ctxCanceled then msgTypeResultCanceled
            else msgTypeResultOK, n⟩], sendLog w i⟩ := by
    simp only [stepEvent, onToolResult]
    split_ifs <;> rfl
  rw [hstep]
  rfl

/-- C2: once a `deny-tool-run` reply has been consumed in a turn, no
`tool-result-ok` is ever emitted later in that turn.

Claim C2. -/
theorem claim_C2_cancellation_monotonic (w : Nat → Bool) (st : TurnState)
    (sc : List RecvItem) (i : Nat) (evs : List EngineEvent)
    (p q : List Action) (dm : Message)
    (hsplit : (runEvents w st sc i evs).actions = p ++ Action.consume dm :: q)
    (hdeny : dm.MsgType = msgTypeDeny) :
    ∀ m, Action.emit m ∈ q → m.MsgType ≠ msgTypeResultOK :=
  deny_consumed_no_ok w evs st sc i p q dm hsplit hdeny

/-- Witness for C2 at a concrete turn: the engine requests one tool call,
the client replies `deny-tool-run`, and the subsequent completion emits
`tool-result-canceled`, never `tool-result-ok`. -/
theorem claim_C2_witness :
    (⟨msgTypeResultCanceled, "search"⟩ : Message).MsgType ≠ msgTypeResultOK :=
  claim_C2_cancellation_monotonic (fun _ => true) ⟨false, false⟩
    [RecvItem.line denyLine] 0
    [EngineEvent.toolCall "search" "q",
     EngineEvent.toolResult "search" "q" "r" false]
    [Action.emit ⟨msgTypeConfirm, "Run tool: search with args: q"⟩]
    [Action.emit ⟨msgTypeResultCanceled, "search"⟩]
    ⟨msgTypeDeny, ""⟩ (by decide) rfl
    ⟨msgTypeResultCanceled, "search"⟩ (by decide)

/-- The trace of a turn suffix is a sequence of blocks: a lone non-confirm
emission, or a `confirm-tool-run` emission immediately followed by the
gate's one reply consumption. -/
theorem runEvents_gateShaped (w : Nat → Bool) :
    ∀ (evs : List EngineEvent) (st : TurnState) (sc : List RecvItem) (i : Nat),
      GateShaped (runEvents w st sc i evs).actions := by
  intro evs
  induction evs with
  | nil => intro st sc i; rw [runEvents_nil]; exact GateShaped.nil
  | cons ev evs ih =>
    intro st sc i
    rw [runEvents_cons]
    simp only
    cases ev with
    | toolCall n a =>
      simp only [stepEvent, onToolCall, List.cons_append, List.nil_append]
      exact GateShaped.gateStep _ _ _ (ih _ _ _)
    | toolResult n a r e =>
      have hstep : stepEvent w st sc i (EngineEvent.toolResult n a r e)
          = ⟨st, sc, i + 1, [Action.emit ⟨if e then msgTypeResultFailed
              else if st.ctxCanceled then msgTypeResultCanceled
              else msgTypeResultOK, n⟩], sendLog w i⟩ := by
        simp only [stepEvent, onToolResult]
        split_ifs <;> rfl
      rw [hstep]
      simp only [List.cons_append, List.nil_append]
      refine GateShaped.emitStep _ _ ?_ (ih _ _ _)
      split_ifs
      · exact (by decide : msgTypeResultFailed ≠ msgTypeConfirm)
      · exact (by decide : msgTypeResultCanceled ≠ msgTypeConfirm)
      · exact (by decide : msgTypeResultOK ≠ msgTypeConfirm)
    | chunk t =>
      simp only [stepEvent, onStreaming, List.cons_append, List.nil_append]
      exact GateShaped.emitStep _ _
        (by exact (by decide : msgTypeChunk ≠ msgTypeConfirm)) (ih _ _ _)

/-- In a gate-shaped trace, every prefix has at most one pending approval
request. -/
theorem gateShaped_pending {l : List Action} (hl : GateShaped l) :
    ∀ p q, l = p ++ q → pendingCount p ≤ 1 := by
  induction hl with
  | nil =>
    intro p q hpq
    cases p with
    | nil => simp [pendingCount, pendingAux]
    | cons x p' => simp at hpq
  | emitStep m rest h hr ih =>
    intro p q hpq
    cases p with
    | nil => simp [pendingCount, pendingAux]
    | cons x p' =>
      rw [List.cons_append] at hpq
      injection hpq with hx hrest
      subst hx
      have heq : pendingCount (Action.emit m :: p') = pendingCount p' := by
        simp [pendingCount, pendingAux, h]
      rw [heq]
      exact ih p' q hrest
  | gateStep m rm rest hr ih =>
    intro p q hpq
    cases p with
    | nil => simp [pendingCount, pendingAux]
    | cons x p' =>
      rw [List.cons_append] at hpq
      injection hpq with hx hrest
      subst hx
      cases p' with
      | nil =>
        by_cases hm : m.MsgType = msgTypeConfirm <;>
          simp [pendingCount, pendingAux, hm]
      | cons y p'' =>
        rw [List.cons_append] at hrest
        injection hrest with hy hrest2
        subst hy
        have heq : pendingCount (Action.emit m :: Action.consume rm :: p'')
            = pendingCount p'' := by
          by_cases hm : m.MsgType = msgTypeConfirm <;>
            simp [pendingCount, pendingAux, hm]
        rw [heq]
        exact ih p'' q hrest2

/-- In a gate-shaped trace, whatever follows a `confirm-tool-run` emission
begins with the consumption of the reply. -/
theorem gateShaped_confirm_consume {l : List Action} (hl : GateShaped l) :
    ∀ p m q, l = p ++ Action.emit m :: q → m.MsgType = msgTypeConfirm →
      ∃ rm q2, q = Action.consume rm :: q2 := by
  induction hl with
  | nil => intro p m q hpq hm; cases p <;> simp at hpq
  | emitStep m0 rest h hr ih =>
    intro p m q hpq hm
    cases p with
    | nil =>
      rw [List.nil_append] at hpq
      injection hpq with hx hrest
      injection hx with hm0
      exact absurd (hm0 ▸ hm) h
    | cons x p' =>
      rw [List.cons_append] at hpq
      injection hpq with hx hrest
      exact ih p' m q hrest hm
  | gateStep m0 rm rest hr ih =>
    intro p m q hpq hm
    cases p with
    | nil =>
      rw [List.nil_append] at hpq
      injection hpq with hx hrest
      exact ⟨rm, rest, hrest.symm⟩
    | cons x p' =>
      rw [List.cons_append] at hpq
      injection hpq with hx hrest
      cases p' with
      | nil =>
        rw [List.nil_append] at hrest
        injection hrest with hy hq
        exact Action.noConfusion hy
      | cons y p'' =>
        rw [List.cons_append] at hrest
        injection hrest with hy hrest2
        exact ih p'' m q hrest2 hm

/-- C9: in every trace of a prompt turn, at most one tool-approval request
is pending at any prefix, and the reply to a `confirm-tool-run` is
consumed immediately, before any subsequent callback's trace entries.

Claim C9. -/
theorem claim_C9_single_pending_gate (w : Nat → Bool) (st : TurnState)
    (sc : List RecvItem) (i : Nat) (evs : List EngineEvent) :
    (∀ p q, (runEvents w st sc i evs).actions = p ++ q → pendingCount p ≤ 1) ∧
    (∀ p m q, (runEvents w st sc i evs).actions = p ++ Action.emit m :: q →
      m.MsgType = msgTypeConfirm → ∃ rm q2, q = Action.consume rm :: q2) :=
  ⟨gateShaped_pending (runEvents_gateShaped w evs st sc i),
   gateShaped_confirm_consume (runEvents_gateShaped w evs st sc i)⟩

/-- Witness for C9 at a concrete turn: one tool call against an inbound
`allow-tool-run` reply; the prefix holding the confirm emission has one
pending request, and the entry after the confirm is the consumed reply. -/
theorem claim_C9_witness :
    pendingCount [Action.emit ⟨msgTypeConfirm, "Run tool: t with args: a"⟩] ≤ 1 ∧
    ∃ rm q2, [Action.consume ⟨msgTypeAllow, ""⟩] = Action.consume rm :: q2 := by
  have h := claim_C9_single_pending_gate (fun _ => true) ⟨false, false⟩
    [RecvItem.line allowLine] 0 [EngineEvent.toolCall "t" "a"]
  exact ⟨h.1 [Action.emit ⟨msgTypeConfirm, "Run tool: t with args: a"⟩]
      [Action.consume ⟨msgTypeAllow, ""⟩] (by decide),
    h.2 [] ⟨msgTypeConfirm, "Run tool: t with args: a"⟩
      [Action.consume ⟨msgTypeAllow, ""⟩] (by decide) rfl⟩

/-- One callback step's state, scanner position, write count and attempted
writes do not depend on the write-outcome oracle: only the log output
does. -/
theorem stepEvent_w_agnostic (w1 w2 : Nat → Bool) (st : TurnState)
    (sc : List RecvItem) (i : Nat) (ev : EngineEvent) :
    (stepEvent w1 st sc i ev).st = (stepEvent w2 st sc i ev).st ∧
    (stepEvent w1 st sc i ev).scanner = (stepEvent w2 st sc i ev).scanner ∧
    (stepEvent w1 st sc i ev).wIdx = (stepEvent w2 st sc i ev).wIdx ∧
    (stepEvent w1 st sc i ev).actions = (stepEvent w2 st sc i ev).actions := by
  cases ev with
  | toolCall n a => simp [stepEvent, onToolCall]
  | toolResult n a r e =>
    simp only [stepEvent, onToolResult]
    split_ifs <;> simp
  | chunk t => simp [stepEvent, onStreaming]

/-- A whole turn's state, scanner position, write count and attempted
writes do not depend on the write-outcome oracle. -/
theorem runEvents_w_agnostic (w1 w2 : Nat → Bool) :
    ∀ (evs : List EngineEvent) (st : TurnState) (sc : List RecvItem) (i : Nat),
      (runEvents w1 st sc i evs).st = (runEvents w2 st sc i evs).st ∧
      (runEvents w1 st sc i evs).scanner = (runEvents w2 st sc i evs).scanner ∧
      (runEvents w1 st sc i evs).wIdx = (runEvents w2 st sc i evs).wIdx ∧
      (runEvents w1 st sc i evs).actions = (runEvents w2 st sc i evs).actions := by
  intro evs
  induction evs with
  | nil => intro st sc i; simp [runEvents_nil]
  | cons ev evs ih =>
    intro st sc i
    obtain ⟨h1, h2, h3, h4⟩ := stepEvent_w_agnostic w1 w2 st sc i ev
    obtain ⟨g1, g2, g3, g4⟩ := ih (stepEvent w2 st sc i ev).st
      (stepEvent w2 st sc i ev).scanner (stepEvent w2 st sc i ev).wIdx
    rw [runEvents_cons, runEvents_cons]
    simp only [h1, h2, h3, h4]
    exact ⟨g1, g2, g3, by rw [g4]⟩

/-- C10: a failed stdout write inside any of the three engine callbacks is
only logged: the turn state (in particular the cancellation flag), the
replies consumed from the inbound stream, the sequence of attempted
outbound messages, and handlePrompt's returned value are all identical to
a run in which every write succeeds — the gate still reads its reply after
a failed `confirm-tool-run` write, and no error propagates to the Session
Loop from a callback write.

Claim C10. -/
theorem claim_C10_write_failure_harmless (w1 w2 : Nat → Bool)
    (beh : TurnBehavior) (sc : List RecvItem) (i : Nat) :
    (handlePrompt w1 beh sc i).ret = (handlePrompt w2 beh sc i).ret ∧
    (handlePrompt w1 beh sc i).finalState = (handlePrompt w2 beh sc i).finalState ∧
    (handlePrompt w1 beh sc i).scanner = (handlePrompt w2 beh sc i).scanner ∧
    (handlePrompt w1 beh sc i).actions = (handlePrompt w2 beh sc i).actions := by
  obtain ⟨h1, h2, h3, h4⟩ := runEvents_w_agnostic w1 w2 beh.events ⟨false, false⟩ sc i
  simp only [handlePrompt]
  exact ⟨by rw [h1], h1, h2, h4⟩

/-- C6: the return contract of handlePrompt — an engine invocation error
is surfaced exactly when the turn was not cancelled; with the cancellation
flag set, or with no engine error, handlePrompt returns success.

Claim C6. -/
theorem claim_C6_engine_error_contract (w : Nat → Bool) (beh : TurnBehavior)
    (sc : List RecvItem) (i : Nat) :
    (beh.fails = true →
      (runEvents w ⟨false, false⟩ sc i beh.events).st.promptCanceled = false →
      (handlePrompt w beh sc i).ret = Except.error ProgErr.engineError) ∧
    (beh.fails = true →
      (runEvents w ⟨false, false⟩ sc i beh.events).st.promptCanceled = true →
      (handlePrompt w beh sc i).ret = Except.ok ()) ∧
    (beh.fails = false → (handlePrompt w beh sc i).ret = Except.ok ()) := by
  refine ⟨fun hf hp => ?_, fun hf hp => ?_, fun hf => ?_⟩
  · simp [handlePrompt, hf, hp]
  · simp [handlePrompt, hf, hp]
  · simp [handlePrompt, hf]

/-- Witness for C6: with an engine that performs no callback and fails,
the error surfaces; the turn was not cancelled. -/
theorem claim_C6_witness :
    (handlePrompt (fun _ => true) ⟨[], true⟩ [] 0).ret
      = Except.error ProgErr.engineError :=
  (claim_C6_engine_error_contract (fun _ => true) ⟨[], true⟩ [] 0).1 rfl rfl

/-- C7: the tool-approval gate is a strict rendezvous — after emitting
`confirm-tool-run` with the formatted description it performs exactly one
read of the inbound stream (the next item is consumed, no second read
happens); `allow-tool-run` resumes with no state change, `deny-tool-run`
sets both cancellation indicators, and any other kind — or an undecodable
reply — is logged and leaves the state unchanged, so the engine resumes
un-canceled.

Claim C7. -/
theorem claim_C7_gate_rendezvous (w : Nat → Bool) (n a : String)
    (st : TurnState) (s : List Char) (rest : List RecvItem) (i : Nat) :
    ((onToolCall w n a st (RecvItem.line s :: rest) i).scanner = rest) ∧
    ((onToolCall w n a st (RecvItem.line s :: rest) i).actions =
      [Action.emit ⟨msgTypeConfirm, "Run tool: " ++ n ++ " with args: " ++ a⟩,
       Action.consume (recvMessage (RecvItem.line s :: rest)).1.1]) ∧
    (∀ m, parseMessageLine s = some m →
      (m.MsgType = msgTypeAllow →
        (onToolCall w n a st (RecvItem.line s :: rest) i).st = st) ∧
      (m.MsgType = msgTypeDeny →
        (onToolCall w n a st (RecvItem.line s :: rest) i).st = ⟨true, true⟩) ∧
      (m.MsgType ≠ msgTypeAllow → m.MsgType ≠ msgTypeDeny →
        (onToolCall w n a st (RecvItem.line s :: rest) i).st = st ∧
        LogEvent.unexpectedKind ∈
          (onToolCall w n a st (RecvItem.line s :: rest) i).logs)) ∧
    (parseMessageLine s = none →
      (onToolCall w n a st (RecvItem.line s :: rest) i).st = st ∧
      LogEvent.unexpectedKind ∈
        (onToolCall w n a st (RecvItem.line s :: rest) i).logs) := by
  cases hp : parseMessageLine s with
  | none =>
    refine ⟨?_, ?_, ?_, ?_⟩
    · simp [onToolCall, recvMessage, hp]
    · simp [onToolCall, recvMessage, hp]
    · intro m hm; exact Option.noConfusion hm
    · intro _
      constructor
      · simp [onToolCall, recvMessage, hp,
          (by decide : ¬(default : Message).MsgType = msgTypeDeny),
          (by decide : ¬(default : Message).MsgType = msgTypeAllow)]
      · simp [onToolCall, recvMessage, hp, sendLog,
          (by decide : ¬(default : Message).MsgType = msgTypeDeny),
          (by decide : ¬(default : Message).MsgType = msgTypeAllow)]
  | some m0 =>
    refine ⟨?_, ?_, ?_, ?_⟩
    · simp [onToolCall, recvMessage, hp]
    · simp [onToolCall, recvMessage, hp]
    · intro m hm
      injection hm with hm0
      subst hm0
      refine ⟨fun hall => ?_, fun hden => ?_, fun hnall hnden => ?_⟩
      · simp [onToolCall, recvMessage, hp, hall,
          (by decide : ¬msgTypeAllow = msgTypeDeny)]
      · simp [onToolCall, recvMessage, hp, hden]
      · constructor
        · simp [onToolCall, recvMessage, hp, hnall, hnden]
        · simp [onToolCall, recvMessage, hp, hnall, hnden, sendLog]
    · intro hn; exact Option.noConfusion hn

/-- Witness for C7: the deny reply at a concrete gate sets both
cancellation indicators. -/
theorem claim_C7_witness :
    (onToolCall (fun _ => true) "t" "a" ⟨false, false⟩
        [RecvItem.line denyLine] 0).st = ⟨true, true⟩ :=
  ((claim_C7_gate_rendezvous (fun _ => true) "t" "a" ⟨false, false⟩ denyLine
      [] 0).2.2.1 ⟨msgTypeDeny, ""⟩ (by decide)).2.1 rfl

/-- C8: encoding appends exactly one newline terminator and the encoded
object itself is newline-free, and feeding the encoded bytes to the
client codec — split at arbitrary offsets across any number of stream
deliveries — reconstructs exactly the original Message, for every
enumerated kind and every content string.

Claim C8. -/
theorem claim_C8_framing_round_trip (m : Message)
    (_hm : m.MsgType ∈ enumeratedKinds) :
    (sendMessageChars m = encodeMessage m ++ ['\n'] ∧ '\n' ∉ encodeMessage m) ∧
    ∀ chunks : List (List Char), chunks.flatten = sendMessageChars m →
      procStreamAll [] chunks = ([], [m]) := by
  refine ⟨⟨rfl, nl_not_mem_encodeMessage m⟩, fun chunks hj => ?_⟩
  rw [procStreamAll_eq (by simp) chunks, hj]
  simp [procStream, framePartition_sendMessage, decodeLines_encodeMessage]

/-- Witness for C8, the spec's Scenario D: the prompt message cut in two
mid-key reassembles into exactly the one original Message. -/
theorem claim_C8_witness :
    procStreamAll []
        [String.toList "\x7b\"msg_typ",
         String.toList "e\":\"prompt\",\"content\":\"hi\"\x7d\n"]
      = ([], [⟨msgTypePrompt, "hi"⟩]) :=
  (claim_C8_framing_round_trip ⟨msgTypePrompt, "hi"⟩ (by decide)).2
    [String.toList "\x7b\"msg_typ",
     String.toList "e\":\"prompt\",\"content\":\"hi\"\x7d\n"] (by decide)

/-! ## Lemmas about the session loop -/

/-- A scanner read error at the session loop's between-turn read is fatal:
the iteration returns the error after its ready send. -/
theorem chatLoopBody_ioErr (w : Nat → Bool) (fuel : Nat)
    (behs : List TurnBehavior) (sc : List RecvItem) (i : Nat)
    (hw : w i = true) :
    chatLoopBody w (fuel + 1) behs (RecvItem.ioErr :: sc) i =
      some (Except.error ProgErr.ioError, [Action.emit ⟨msgTypeReady, ""⟩], []) := by
  rw [chatLoopBody.eq_def]
  simp [recvMessage, hw]

/-- At end of input the scanner yields the zero Message with a nil error,
which the loop treats as an unexpected kind: it loops forever, re-sending
`ready` each iteration, and never terminates. -/
theorem chatLoopBody_eof (behs : List TurnBehavior) :
    ∀ (fuel i : Nat), chatLoopBody (fun _ => true) fuel behs [] i = none := by
  intro fuel
  induction fuel with
  | zero => intro i; rfl
  | succ fuel ih =>
    intro i
    rw [chatLoopBody.eq_def]
    simp [recvMessage, ih,
      (by decide : ¬(default : Message).MsgType = msgTypeQuit),
      (by decide : ¬(default : Message).MsgType = msgTypePrompt)]

/-- A malformed inbound line at the session loop's read surfaces the
decode error, which the loop returns: fatal. -/
theorem chatLoopBody_badLine (w : Nat → Bool) (fuel : Nat)
    (behs : List TurnBehavior) (sc : List RecvItem) (i : Nat) (s : List Char)
    (hw : w i = true) (hbad : parseMessageLine s = none) :
    chatLoopBody w (fuel + 1) behs (RecvItem.line s :: sc) i =
      some (Except.error ProgErr.decodeError, [Action.emit ⟨msgTypeReady, ""⟩], []) := by
  rw [chatLoopBody.eq_def]
  simp [recvMessage, hw, hbad]

/-- A decodable line whose kind is neither prompt nor quit makes the loop
log the protocol-leniency warning and continue with the remaining input,
its own ready prepended to the continuation's trace. -/
theorem chatLoopBody_unknownKind (w : Nat → Bool) (fuel : Nat)
    (behs : List TurnBehavior) (sc : List RecvItem) (i : Nat) (s : List Char)
    (m : Message) (hw : w i = true) (hp : parseMessageLine s = some m)
    (hq : ¬m.MsgType = msgTypeQuit) (hpr : ¬m.MsgType = msgTypePrompt) :
    chatLoopBody w (fuel + 1) behs (RecvItem.line s :: sc) i =
      match chatLoopBody w fuel behs sc (i + 1) with
      | none => none
      | some (ret, acts, logs) =>
        some (ret, Action.emit ⟨msgTypeReady, ""⟩ :: acts,
          LogEvent.unexpectedKind :: logs) := by
  rw [chatLoopBody.eq_def]
  cases hrec : chatLoopBody w fuel behs sc (i + 1) with
  | none => simp [recvMessage, hw, hp, hq, hpr, hrec]
  | some trip =>
    obtain ⟨ret, acts, logs⟩ := trip
    simp [recvMessage, hw, hp, hq, hpr, hrec]

/-- Every terminating session-loop run begins its trace with a ready
emission: the loop (re)sends `ready` at the top of every iteration,
before each read. -/
theorem chatLoopBody_head_ready (w : Nat → Bool) (fuel : Nat)
    (behs : List TurnBehavior) (sc : List RecvItem) (i : Nat)
    (ret : Except ProgErr Unit) (acts : List Action) (logs : List LogEvent)
    (h : chatLoopBody w fuel behs sc i = some (ret, acts, logs)) :
    ∃ t2, acts = Action.emit ⟨msgTypeReady, ""⟩ :: t2 := by
  cases fuel with
  | zero => exact absurd h (by simp [chatLoopBody])
  | succ fuel =>
    rw [chatLoopBody.eq_def] at h
    simp only at h
    split at h
    · simp only [Option.some.injEq, Prod.mk.injEq] at h
      exact ⟨[], h.2.1.symm⟩
    · split at h
      · simp only [Option.some.injEq, Prod.mk.injEq] at h
        exact ⟨[], h.2.1.symm⟩
      · split at h
        · simp only [Option.some.injEq, Prod.mk.injEq] at h
          exact ⟨[], h.2.1.symm⟩
        · split at h
          · split at h
            · simp only [Option.some.injEq, Prod.mk.injEq] at h
              exact ⟨_, h.2.1.symm⟩
            · split at h
              · exact Option.noConfusion h
              · simp only [Option.some.injEq, Prod.mk.injEq] at h
                exact ⟨_, h.2.1.symm⟩
          · split at h
            · exact Option.noConfusion h
            · simp only [Option.some.injEq, Prod.mk.injEq] at h
              exact ⟨_, h.2.1.symm⟩

/-- Decoding a single encoded message from an empty buffer yields exactly
that message and an empty buffer. -/
theorem procStream_sendMessage (m : Message) :
    procStream [] (sendMessageChars m) = ([], [m]) := by
  simp [procStream, framePartition_sendMessage, decodeLines_encodeMessage]

/-- A single undecodable line decodes to nothing: blank lines are skipped
and malformed ones are dropped. -/
theorem decodeLines_undecodable {bad : List Char}
    (hbad : parseMessageLine bad = none) : decodeLines [bad] = [] := by
  have hb : (if jsTrim bad = [] then none else parseMessageLine bad)
      = (none : Option Message) := by
    split
    · rfl
    · exact hbad
  simp [decodeLines, hb]

/-- Counterexample to C3 as stated: after the unknown-kind line the loop
emits a second `ready` before consuming the quit, so two `ready` messages
precede the quit where the claim allows at most one and forbids
resending. -/
theorem claim_C3_counterexample :
    chatLoop (fun _ => true) 3 []
        [RecvItem.line unknownLine, RecvItem.line quitLine]
      = some ⟨Except.ok (),
          [Action.emit ⟨msgTypeReady, ""⟩, Action.emit ⟨msgTypeReady, ""⟩],
          [LogEvent.unexpectedKind], true⟩ := by decide

/-- C3 amended: on an inbound kind that is neither prompt nor quit, the
loop logs the protocol-leniency warning and continues with the next
inbound message — but it continues at the top of the loop, so `ready` IS
sent again before the next read: every terminating continuation's trace
starts with a fresh ready emission.

Claim C3, as amended. -/
theorem claim_C3_unexpected_kind_resends_ready (w : Nat → Bool) (fuel : Nat)
    (behs : List TurnBehavior) (sc : List RecvItem) (i : Nat) (s : List Char)
    (m : Message) (hw : w i = true) (hp : parseMessageLine s = some m)
    (hq : ¬m.MsgType = msgTypeQuit) (hpr : ¬m.MsgType = msgTypePrompt) :
    (chatLoopBody w (fuel + 1) behs (RecvItem.line s :: sc) i =
      match chatLoopBody w fuel behs sc (i + 1) with
      | none => none
      | some (ret, acts, logs) =>
        some (ret, Action.emit ⟨msgTypeReady, ""⟩ :: acts,
          LogEvent.unexpectedKind :: logs)) ∧
    (∀ ret acts logs,
      chatLoopBody w fuel behs sc (i + 1) = some (ret, acts, logs) →
      ∃ t2, acts = Action.emit ⟨msgTypeReady, ""⟩ :: t2) :=
  ⟨chatLoopBody_unknownKind w fuel behs sc i s m hw hp hq hpr,
   fun ret acts logs h =>
     chatLoopBody_head_ready w fuel behs sc (i + 1) ret acts logs h⟩

/-- Witness for the amended C3 at a concrete session: an unknown-kind
line followed by a quit. -/
theorem claim_C3_witness :
    chatLoopBody (fun _ => true) 2 []
        [RecvItem.line unknownLine, RecvItem.line quitLine] 0 =
      match chatLoopBody (fun _ => true) 1 [] [RecvItem.line quitLine] 1 with
      | none => none
      | some (ret, acts, logs) =>
        some (ret, Action.emit ⟨msgTypeReady, ""⟩ :: acts,
          LogEvent.unexpectedKind :: logs) :=
  (claim_C3_unexpected_kind_resends_ready (fun _ => true) 1 []
    [RecvItem.line quitLine] 0 unknownLine ⟨"hello", ""⟩ rfl (by decide)
    (by decide) (by decide)).1

/-- Counterexample to C4 as stated: with a read failure at the Tool
Approval Gate's reply read, the session does not terminate there — the
gate logs and returns un-canceled, the completion still emits
`tool-result-ok`, handlePrompt returns success and the loop sends another
`ready`; only the loop's own next between-turn read then fails. -/
theorem claim_C4_counterexample :
    chatLoop (fun _ => true) 3
        [⟨[EngineEvent.toolCall "search" "q",
           EngineEvent.toolResult "search" "q" "r" false], false⟩]
        [RecvItem.line promptLine, RecvItem.ioErr]
      = some ⟨Except.error ProgErr.ioError,
          [Action.emit ⟨msgTypeReady, ""⟩,
           Action.emit ⟨msgTypeConfirm, "Run tool: search with args: q"⟩,
           Action.consume ⟨"", ""⟩,
           Action.emit ⟨msgTypeResultOK, "search"⟩,
           Action.emit ⟨msgTypeReady, ""⟩],
          [LogEvent.recvErr, LogEvent.unexpectedKind], true⟩ := by decide

/-- C4 amended: only a scanner read error at the Session Loop's own
between-turn read is fatal — the loop returns the error (after the
deferred engine release, recorded by `closed`).  End of input is not
fatal: the scanner reports it as a zero Message with nil error, the loop
treats it as an unexpected kind and spins forever re-sending `ready`.  A
read failure at the Tool Approval Gate is only logged: the gate returns
with the turn state unchanged and the session continues.

Claim C4, as amended. -/
theorem claim_C4_read_failure_scope (w : Nat → Bool) (fuel : Nat)
    (behs : List TurnBehavior) (sc : List RecvItem) (n a : String)
    (st : TurnState) (i : Nat) (hw : w 0 = true) :
    (chatLoop w (fuel + 1) behs (RecvItem.ioErr :: sc)
      = some ⟨Except.error ProgErr.ioError,
          [Action.emit ⟨msgTypeReady, ""⟩], [], true⟩) ∧
    (∀ fuel2, chatLoop (fun _ => true) fuel2 behs [] = none) ∧
    ((onToolCall w n a st (RecvItem.ioErr :: sc) i).st = st ∧
     (onToolCall w n a st (RecvItem.ioErr :: sc) i).scanner
        = RecvItem.ioErr :: sc ∧
     LogEvent.recvErr ∈ (onToolCall w n a st (RecvItem.ioErr :: sc) i).logs) := by
  refine ⟨?_, ?_, ?_, ?_, ?_⟩
  · simp [chatLoop, chatLoopBody_ioErr w fuel behs sc 0 hw]
  · intro fuel2; simp [chatLoop, chatLoopBody_eof]
  · simp [onToolCall, recvMessage,
      (by decide : ¬(default : Message).MsgType = msgTypeDeny),
      (by decide : ¬(default : Message).MsgType = msgTypeAllow)]
  · simp [onToolCall, recvMessage]
  · simp [onToolCall, recvMessage, sendLog]

/-- Witness for the amended C4: the loop dies on a scanner error at its
own read, with the engine released. -/
theorem claim_C4_witness :
    chatLoop (fun _ => true) 1 [] [RecvItem.ioErr]
      = some ⟨Except.error ProgErr.ioError,
          [Action.emit ⟨msgTypeReady, ""⟩], [], true⟩ :=
  (claim_C4_read_failure_scope (fun _ => true) 0 [] [] "t" "a"
    ⟨false, false⟩ 0 rfl).1

/-- Counterexample to C5 as stated: a malformed JSON line on the agent
side's stdin is not dropped — recvMessage surfaces the decode error and
the Session Loop returns it, terminating the session because of that
line. -/
theorem claim_C5_counterexample :
    chatLoop (fun _ => true) 2 [] [RecvItem.line badLine]
      = some ⟨Except.error ProgErr.decodeError,
          [Action.emit ⟨msgTypeReady, ""⟩], [], true⟩ := by decide

/-- C5 amended: the soft-failure contract holds for the client-side codec
— a malformed line followed by a valid line yields exactly the one
Message of the valid line, with nothing thrown — and at the Tool Approval
Gate, where the decode failure is logged and treated as an unexpected
reply.  At the Session Loop's own read, however, the decode error is
returned and terminates the session.

Claim C5, as amended. -/
theorem claim_C5_soft_failure_scope (w : Nat → Bool) (fuel : Nat)
    (behs : List TurnBehavior) (sc : List RecvItem) (bad : List Char)
    (m : Message) (n a : String) (st : TurnState) (i : Nat)
    (hbad : parseMessageLine bad = none) (hnl : '\n' ∉ bad)
    (hw : w i = true) :
    (procStream [] (bad ++ '\n' :: sendMessageChars m) = ([], [m])) ∧
    (chatLoopBody w (fuel + 1) behs (RecvItem.line bad :: sc) i =
      some (Except.error ProgErr.decodeError,
        [Action.emit ⟨msgTypeReady, ""⟩], [])) ∧
    ((onToolCall w n a st (RecvItem.line bad :: sc) i).st = st ∧
     LogEvent.recvErr ∈ (onToolCall w n a st (RecvItem.line bad :: sc) i).logs) := by
  refine ⟨?_, ?_, ?_, ?_⟩
  · have hassoc : bad ++ '\n' :: sendMessageChars m
        = (bad ++ ['\n']) ++ sendMessageChars m := by simp
    have hfp1 : framePartition (bad ++ ['\n']) = ([bad], []) := by
      have h0 : framePartition ['\n'] = ([[]], []) := rfl
      have h1 := framePartition_append bad ['\n']
      rw [framePartition_no_nl hnl, h0] at h1
      simpa [consFirst] using h1
    have hfirst : procStream [] (bad ++ ['\n']) = ([], []) := by
      rw [procStream, List.nil_append, hfp1]
      simp [decodeLines_undecodable hbad]
    rw [hassoc, procStream_append, hfirst]
    simp [procStream_sendMessage]
  · exact chatLoopBody_badLine w fuel behs sc i bad hw hbad
  · simp [onToolCall, recvMessage, hbad,
      (by decide : ¬(default : Message).MsgType = msgTypeDeny),
      (by decide : ¬(default : Message).MsgType = msgTypeAllow)]
  · simp [onToolCall, recvMessage, hbad, sendLog]

/-- Witness for the amended C5: the concrete malformed line followed by
an encoded prompt message decodes to exactly the prompt message in the
client codec. -/
theorem claim_C5_witness :
    procStream [] (badLine ++ '\n' :: sendMessageChars ⟨msgTypePrompt, "hi"⟩)
      = ([], [⟨msgTypePrompt, "hi"⟩]) :=
  (claim_C5_soft_failure_scope (fun _ => true) 0 [] [] badLine
    ⟨msgTypePrompt, "hi"⟩ "t" "a" ⟨false, false⟩ 0 (by decide) (by decide)
    rfl).1

end McpCockpit
